import Mathlib

/-!
Verification of the `celer` path-continuation driver (`celer/homotopy.py`).

This file embeds, as pure Lean functions, the Python driver code of
`celer_path`, `_grp_converter` and `mtl_path`.  The compiled inner solvers
(`celer`, `celer_grp`, `newton_celer`, `celer_mtl`) are Cython extension
modules: they are modelled as abstract function parameters, so all theorems
hold for an arbitrary inner solver.  Vectors are modelled with `List ℚ`
(floating point replaced by exact rationals); numpy arrays that the driver
allocates are tracked both by value and, where in-place mutation matters,
by an allocation identifier (`wRef`, `thetaRef`, ...): two identifiers are
equal exactly when the corresponding numpy buffers are the same object.
-/

namespace Celer

/-- Problem tags, `homotopy.py` lines 21-23 (`LASSO`, `LOGREG`, `GRPLASSO`). -/
inductive Pb
  | lasso
  | logreg
  | grouplasso
deriving DecidableEq, Repr, Inhabited

/-- The exception kinds the driver can raise during input validation.
`valueError` models Python's `ValueError`; `zeroDivisionError` models the
`ZeroDivisionError` that `n_features % grp_size` raises when `grp_size = 0`;
`indexError` models the `IndexError` that `groups[0]` raises on an empty
list. -/
inductive PathError
  | valueError (msg : String)
  | zeroDivisionError
  | indexError
deriving DecidableEq, Repr

/-- The `groups` argument of `celer_path` / `_grp_converter`
(`int`, `list` of `int`, `list` of `list` of `int`, or anything else). -/
inductive Groups
  | size (k : ℕ)
  | sizes (l : List ℕ)
  | lists (ls : List (List ℕ))
  | other
deriving DecidableEq, Repr

/-- `np.cumsum`: running totals of a list (same length as the input). -/
def cumsum (xs : List ℕ) : List ℕ := (xs.scanl (· + ·) 0).tail

/-- `_grp_converter(groups, n_features)`, `homotopy.py` lines 325-343.
`grp_ptr = grp_size * np.arange(n_groups + 1)` becomes
`(List.range (n_groups+1)).map (k * ·)`; `np.cumsum(np.hstack([[0], l]))`
becomes `cumsum (0 :: l)`; list-of-lists concatenation becomes `flatten`.
Python raises `ZeroDivisionError` on `n_features % 0` and `IndexError` on
`groups[0]` for an empty list; both are modelled explicitly. -/
def _grp_converter (groups : Groups) (n_features : ℕ) :
    Except PathError (List ℕ × List ℕ) :=
  match groups with
  | .size k =>
      if k = 0 then .error .zeroDivisionError
      else if n_features % k ≠ 0 then
        .error (.valueError "n_features is not a multiple of the desired group size")
      else
        let n_groups := n_features / k
        .ok ((List.range (n_groups + 1)).map (fun i => k * i), List.range n_features)
  | .sizes [] => .error .indexError
  | .sizes l => .ok (cumsum (0 :: l), List.range n_features)
  | .lists [] => .error .indexError
  | .lists ls =>
      let grp_sizes := ls.map List.length
      .ok (cumsum (0 :: grp_sizes), ls.flatten)
  | .other => .error (.valueError "Unsupported group format.")

/-- The Partition invariant of the spec (§3): `grp_ptr` monotonically
increasing, starting at 0, ending at `n_features`, and `grp_indices` a
permutation of `[0, n_features)`. -/
def partitionInvariant (grp_ptr grp_indices : List ℕ) (n_features : ℕ) : Prop :=
  grp_ptr.Chain' (· ≤ ·) ∧ grp_ptr.head? = some 0 ∧
    grp_ptr.getLast? = some n_features ∧
    List.Perm grp_indices (List.range n_features)

instance (p i : List ℕ) (n : ℕ) : Decidable (partitionInvariant p i n) :=
  decidable_of_iff
    (p.Chain' (· ≤ ·) ∧ p.head? = some 0 ∧ p.getLast? = some n ∧
      List.Perm i (List.range n)) Iff.rfl

/-- Python's `str.lower()`: lower-case every character. -/
def lowerStr (s : String) : String := ⟨s.data.map Char.toLower⟩

/-- `pb.lower()` dispatch of `homotopy.py` lines 138-148. -/
def parsePb (pb : String) : Option Pb :=
  if lowerStr pb = "lasso" then some .lasso
  else if lowerStr pb = "logreg" then some .logreg
  else if lowerStr pb = "grouplasso" then some .grouplasso
  else none

/-- The input-validation prefix of `celer_path`, `homotopy.py` lines 138-155:
unsupported problem name; for `"logreg"`, labels outside `{-1., 1.}`
(`set(y) - set([-1.0, 1.0])` non-empty); for `"grouplasso"`, a missing
`groups` argument, then `_grp_converter` (whose errors propagate).  On
success it returns the problem tag and, for the group problem, the
converted partition. -/
def validate (pb : String) (y : List ℚ) (groups : Option Groups)
    (n_features : ℕ) : Except PathError (Pb × Option (List ℕ × List ℕ)) :=
  match parsePb pb with
  | none => .error (.valueError ("Unsupported problem " ++ pb))
  | some .lasso => .ok (.lasso, none)
  | some .logreg =>
      if y.all (fun v => decide (v = -1 ∨ v = 1)) then .ok (.logreg, none)
      else .error (.valueError "y must contain only -1. or 1 values.")
  | some .grouplasso =>
      match groups with
      | none =>
          .error (.valueError "Groups must be specified for the group lasso problem.")
      | some g => (_grp_converter g n_features).map fun pt => (.grouplasso, some pt)

/-- `np.sort(alphas)[::-1]`, `homotopy.py` lines 194 and 384: sort
ascending, then reverse. -/
def sortDesc (l : List ℚ) : List ℚ := (l.insertionSort (· ≤ ·)).reverse

/-- `len(np.where(w != 0)[0])` (= `(w != 0.).sum()`): the number of
non-zero coordinates. -/
def nnz (w : List ℚ) : ℕ := (w.filter (fun v => decide (v ≠ 0))).length

/-- One inner-solve invocation of `celer_path`: the values and buffer
identifiers of the arrays handed to the solver (`homotopy.py` lines
283-303), plus the working-set size `p0` in force for this grid point. -/
structure SolverCall where
  alpha : ℚ
  w : List ℚ
  Xw : List ℚ
  theta : List ℚ
  p0 : ℕ
  wRef : ℕ
  thetaRef : ℕ
deriving DecidableEq, Repr, Inhabited

/-- What an inner solve produces: final primal `w`, dual `theta`, the list
of duality gaps over outer iterations (`sol[2]`; the driver stores
`sol[2][-1]` and `len(sol[2])`), and the residual buffer `Xw` as the solver
leaves it (mutated in place). -/
structure SolverResult where
  w : List ℚ
  theta : List ℚ
  gaps : List ℚ
  Xw : List ℚ
deriving DecidableEq, Repr, Inhabited

/-- The fixed data of one `celer_path` run once validation and grid
construction are done.  `solver` abstracts the Cython inner solvers
(`celer` / `celer_grp` / `newton_celer` all receive the same warm start `w`
and working-set size `p0`); `computeXw` abstracts the Cython `compute_Xw`
(line 262); `initTheta` abstracts the variant-specific first dual point
(lines 269-281, which use `exp`, norms and the Cython `dscal_grp`). -/
structure PathEnv where
  solver : SolverCall → SolverResult
  tol : ℚ
  alphas : List ℚ
  n_features : ℕ
  pb : Pb
  y : List ℚ
  coef_init : Option (List ℚ)
  p0 : ℕ
  computeXw : List ℚ → List ℚ
  initTheta : List ℚ → ℚ → List ℚ

/-- The warm start for grid point `t`: primal `w`, residual `Xw`, dual
`theta`, and the working-set size, `homotopy.py` lines 252-281. -/
structure Warm where
  w : List ℚ
  Xw : List ℚ
  theta : List ℚ
  p0 : ℕ

/-- The driver's per-grid-point mutable state: the result arrays filled so
far (one entry per solved grid point), the warning record, the call trace,
and the current residual buffer value (`Xw` is allocated once at `t = 0`
and reused — never copied — across grid points). -/
structure PathState where
  coefs : List (List ℚ)
  thetas : List (List ℚ)
  dualGaps : List ℚ
  nIters : List ℕ
  warns : List ℕ
  calls : List SolverCall
  Xw : List ℚ
deriving Repr

/-- Warm-start computation, `homotopy.py` lines 252-281.
For `t > 0`: `w = coefs[:, t-1].copy()`, `theta = thetas[t-1].copy()`,
`p0 = max(len(np.where(w != 0)[0]), 1)`, and the residual buffer is the
one the previous solve left behind.  For `t = 0`: either `coef_init` (with
`p0 = max((w != 0.).sum(), p0)` and `Xw = compute_Xw(...)`) or the zero
vector (with `Xw` zero for Logreg, `y.copy()` otherwise); `theta` is then
the variant-specific initial dual point. -/
def warmStart (env : PathEnv) (s : PathState) (t : ℕ) : Warm :=
  if t = 0 then
    match env.coef_init with
    | some ci =>
        let Xw := env.computeXw ci
        ⟨ci, Xw, env.initTheta Xw (env.alphas.getD 0 0), max (nnz ci) env.p0⟩
    | none =>
        let w := List.replicate env.n_features 0
        let Xw := if env.pb = .logreg then List.replicate env.y.length 0 else env.y
        ⟨w, Xw, env.initTheta Xw (env.alphas.getD 0 0), env.p0⟩
  else
    ⟨s.coefs.getD (t - 1) [], s.Xw, s.thetas.getD (t - 1) [],
      max (nnz (s.coefs.getD (t - 1) [])) 1⟩

/-- The solver call issued at grid point `t`.  Buffer identifiers: at every
grid point the primal handed to the solver is a fresh array (`.copy()` at
lines 253/258 or `np.zeros` at line 266), and so is the dual (`.copy()` at
line 254 or the fresh arrays built at lines 269-281), so `wRef`/`thetaRef`
are distinct fresh identifiers per grid point. -/
def mkCall (env : PathEnv) (s : PathState) (t : ℕ) : SolverCall :=
  let ws := warmStart env s t
  ⟨env.alphas.getD t 0, ws.w, ws.Xw, ws.theta, ws.p0, 2 * t, 2 * t + 1⟩

/-- One iteration of the path loop, `homotopy.py` lines 245-314: build the
warm start, call the inner solver, store column `t` of the results
(`coefs[:, t], thetas[t], dual_gaps[t] = sol[0], sol[1], sol[2][-1]`,
`n_iters[t] = len(sol[2])`), and emit a `ConvergenceWarning` when
`dual_gaps[t] > tol`. -/
def pathStep (env : PathEnv) (s : PathState) (t : ℕ) : PathState :=
  let call := mkCall env s t
  let sol := env.solver call
  let gap := sol.gaps.getLastD 0
  { coefs := s.coefs ++ [sol.w]
    thetas := s.thetas ++ [sol.theta]
    dualGaps := s.dualGaps ++ [gap]
    nIters := s.nIters ++ [sol.gaps.length]
    warns := s.warns ++ (if env.tol < gap then [t] else [])
    calls := s.calls ++ [call]
    Xw := sol.Xw }

/-- The empty initial state (result arrays conceptually pre-allocated,
modelled as filled left-to-right). -/
def initState : PathState := ⟨[], [], [], [], [], [], []⟩

/-- The first `N` iterations of the path loop (`for t in range(n_alphas)`). -/
def runPath (env : PathEnv) : ℕ → PathState
  | 0 => initState
  | t + 1 => pathStep env (runPath env t) t

/-- The arguments of `celer_path` that the driver logic inspects. -/
structure CelerArgs where
  pb : String
  y : List ℚ
  n_features : ℕ
  alphas : Option (List ℚ)
  coef_init : Option (List ℚ)
  p0 : ℕ
  tol : ℚ
  groups : Option Groups
  return_thetas : Bool
  return_n_iter : Bool

/-- What `celer_path` returns (plus, for verification, the warning record
`warns` — the indices `t` at which a `ConvergenceWarning` was emitted —
and the trace `calls` of inner-solver invocations in call order).
`thetas` / `nIters` are present exactly when the corresponding flag is
set (`homotopy.py` lines 316-322). -/
structure CelerResults where
  alphas : List ℚ
  coefs : List (List ℚ)
  dualGaps : List ℚ
  thetas : Option (List (List ℚ))
  nIters : Option (List ℕ)
  warns : List ℕ
  calls : List SolverCall
deriving Repr

/-- The grid actually used, `homotopy.py` lines 174-196: the analytic
default grid when `alphas is None` (line 191, abstracted as
`defaultGrid = alpha_max * np.geomspace(1, eps, n_alphas)`; for the
analytic `alpha_max` see `alphaMaxLasso` below), otherwise the
caller-supplied grid re-sorted descending (line 194). -/
def gridOf (a : CelerArgs) (defaultGrid : List ℚ) : List ℚ :=
  match a.alphas with
  | none => defaultGrid
  | some l => sortDesc l

/-- The `PathEnv` of a validated `celer_path` call. -/
def mkEnv (a : CelerArgs) (solver : SolverCall → SolverResult)
    (defaultGrid : List ℚ) (computeXw : List ℚ → List ℚ)
    (initTheta : List ℚ → ℚ → List ℚ) (pbTag : Pb) : PathEnv :=
  ⟨solver, a.tol, gridOf a defaultGrid, a.n_features, pbTag, a.y,
    a.coef_init, a.p0, computeXw, initTheta⟩

/-- Assemble the results of a validated run, `homotopy.py` lines 157-322:
`n_alphas = len(alphas)` (line 196), then the path loop. -/
def celerRun (a : CelerArgs) (solver : SolverCall → SolverResult)
    (defaultGrid : List ℚ) (computeXw : List ℚ → List ℚ)
    (initTheta : List ℚ → ℚ → List ℚ) (pbTag : Pb) : CelerResults :=
  let env := mkEnv a solver defaultGrid computeXw initTheta pbTag
  let s := runPath env (gridOf a defaultGrid).length
  { alphas := gridOf a defaultGrid
    coefs := s.coefs
    dualGaps := s.dualGaps
    thetas := if a.return_thetas then some s.thetas else none
    nIters := if a.return_n_iter then some s.nIters else none
    warns := s.warns
    calls := s.calls }

/-- `celer_path`, `homotopy.py` lines 26-322: validate, then run the path
loop.  Validation errors abort before any solving begins. -/
def celer_path (a : CelerArgs) (solver : SolverCall → SolverResult)
    (defaultGrid : List ℚ) (computeXw : List ℚ → List ℚ)
    (initTheta : List ℚ → ℚ → List ℚ) : Except PathError CelerResults :=
  (validate a.pb a.y a.groups a.n_features).map fun v =>
    celerRun a solver defaultGrid computeXw initTheta v.1

/-! ### `mtl_path` (`homotopy.py` lines 369-429)

Matrices (`W`, `R`, `theta`, `Y`) are `List (List ℚ)`: rows indexed by
feature (for `W`) or sample (for `R`/`theta`/`Y`), inner lists by task. -/

/-- One `celer_mtl` invocation: argument values, buffer identifiers, and
the working-set size `p_t`.  `R` and `theta` are allocated once before the
loop (lines 398-399), so `rRef`/`thetaRef` are the same at every grid
point, while `W` is a fresh `.copy()` each iteration (lines 408/411). -/
structure MtlCall where
  alpha : ℚ
  W : List (List ℚ)
  R : List (List ℚ)
  theta : List (List ℚ)
  p_t : ℕ
  wRef : ℕ
  rRef : ℕ
  thetaRef : ℕ
deriving DecidableEq, Repr, Inhabited

/-- `celer_mtl`'s output: final `W`, dual `theta`, gap (`sol[2]`, a scalar
at line 422), and the residual buffer `R` as left in place. -/
structure MtlResult where
  W : List (List ℚ)
  theta : List (List ℚ)
  gap : ℚ
  R : List (List ℚ)
deriving DecidableEq, Repr, Inhabited

/-- Fixed data of an `mtl_path` run: the abstract Cython solver, the grid,
the `p0` argument, `Y`, and `W0` — the slice `coefs[:, :, 0]` the first
grid point is warm-started from (zeros, or derived from `coef_init`,
lines 388-392). -/
structure MtlEnv where
  solver : MtlCall → MtlResult
  alphas : List ℚ
  p0 : ℕ
  Y : List (List ℚ)
  W0 : List (List ℚ)

/-- `mtl_path`'s loop state: results filled so far, the call trace, and
the current values of the shared `R` and `theta` buffers. -/
structure MtlState where
  coefs : List (List (List ℚ))
  thetas : List (List (List ℚ))
  gaps : List ℚ
  calls : List MtlCall
  R : List (List ℚ)
  theta : List (List ℚ)
deriving Repr

/-- `len(np.where(W[:, 0] != 0)[0])` (line 409): the number of features
whose first-task coefficient is non-zero. -/
def nnzCol0 (W : List (List ℚ)) : ℕ :=
  (W.filter (fun row => decide (row.getD 0 0 ≠ 0))).length

/-- Initial `mtl_path` state, lines 398-399: `R = Y.copy(order='F')`
(buffer id 0), `theta = np.zeros_like(R)` (buffer id 1). -/
def mtlInit (env : MtlEnv) : MtlState :=
  ⟨[], [], [], [], env.Y, env.Y.map (List.map fun _ => 0)⟩

/-- The `celer_mtl` call issued at grid point `t`, lines 407-420.  For
`t > 0`: `W = coefs[:, :, t-1].copy()` and
`p_t = max(len(np.where(W[:, 0] != 0)[0]), p0)`; for `t = 0`:
`W = coefs[:, :, 0].copy()` and `p_t = 10`.  The same `R`/`theta` buffers
(ids 0 and 1) are passed at every grid point; `W`'s buffer (id `2 + t`)
is a fresh copy each time. -/
def mkMtlCall (env : MtlEnv) (s : MtlState) (t : ℕ) : MtlCall :=
  let Wp : List (List ℚ) × ℕ :=
    if t = 0 then (env.W0, 10)
    else (s.coefs.getD (t - 1) [],
      max (nnzCol0 (s.coefs.getD (t - 1) [])) env.p0)
  ⟨env.alphas.getD t 0, Wp.1, s.R, s.theta, Wp.2, 2 + t, 0, 1⟩

/-- One iteration of the `mtl_path` loop, lines 402-422: build the call,
run `celer_mtl` (which mutates `W`, `R`, `theta` in place), and copy
`coefs[:, :, t], thetas[t], gaps[t] = sol[0], sol[1], sol[2]` into the
result arrays. -/
def mtlStep (env : MtlEnv) (s : MtlState) (t : ℕ) : MtlState :=
  let call := mkMtlCall env s t
  let sol := env.solver call
  { coefs := s.coefs ++ [sol.W]
    thetas := s.thetas ++ [sol.theta]
    gaps := s.gaps ++ [sol.gap]
    calls := s.calls ++ [call]
    R := sol.R
    theta := sol.theta }

/-- The first `N` iterations of the `mtl_path` loop. -/
def mtlRun (env : MtlEnv) : ℕ → MtlState
  | 0 => mtlInit env
  | t + 1 => mtlStep env (mtlRun env t) t

/-- What `mtl_path` returns (lines 424-429), plus the call trace. -/
structure MtlResults where
  alphas : List ℚ
  coefs : List (List (List ℚ))
  gaps : List ℚ
  thetas : Option (List (List (List ℚ)))
  calls : List MtlCall
deriving Repr

/-- `mtl_path`, lines 369-429: build the grid (caller-supplied grids are
re-sorted descending, line 384; `defaultGrid` abstracts
`alpha_max * np.geomspace(1, eps, n_alphas)` of lines 380-382), run the
loop, return the results. -/
def mtl_path (solver : MtlCall → MtlResult) (Y W0 : List (List ℚ))
    (alphas : Option (List ℚ)) (defaultGrid : List ℚ) (p0 : ℕ)
    (return_thetas : Bool) : MtlResults :=
  let alphas' := match alphas with
    | none => defaultGrid
    | some l => sortDesc l
  let env : MtlEnv := ⟨solver, alphas', p0, Y, W0⟩
  let s := mtlRun env alphas'.length
  { alphas := alphas'
    coefs := s.coefs
    gaps := s.gaps
    thetas := if return_thetas then some s.thetas else none
    calls := s.calls }

/-! ### The Lasso `alpha_max` (`homotopy.py` lines 176-180)

For the zero-optimality property (claim C5) the Lasso data is embedded
exactly: `X : Fin n → Fin p → ℚ` (the design matrix), `y : Fin n → ℚ`. -/

/-- Column `j` of `X.T @ y`. -/
def XtYcol {n p : ℕ} (X : Fin n → Fin p → ℚ) (y : Fin n → ℚ) (j : Fin p) : ℚ :=
  ∑ i, X i j * y i

/-- The Lasso primal objective (docstring of `celer_path`, lines 37-38):
`||y - X w||² / (2 n) + alpha * ||w||₁`. -/
def lassoObj {n p : ℕ} (X : Fin n → Fin p → ℚ) (y : Fin n → ℚ) (alpha : ℚ)
    (w : Fin p → ℚ) : ℚ :=
  (∑ i, (y i - ∑ j, X i j * w j) ^ 2) / (2 * n) + alpha * ∑ j, |w j|

/-- `alpha_max = norm(X.T @ y, ord=np.inf) / n_samples`, line 180. -/
def alphaMaxLasso {n p : ℕ} [Nonempty (Fin p)] (X : Fin n → Fin p → ℚ)
    (y : Fin n → ℚ) : ℚ :=
  (Finset.univ.sup' Finset.univ_nonempty fun j => |XtYcol X y j|) / n

/-- `alpha_max = np.max(X.T.dot(y)) / n_samples` when `positive=True`,
line 178. -/
def alphaMaxLassoPositive {n p : ℕ} [Nonempty (Fin p)]
    (X : Fin n → Fin p → ℚ) (y : Fin n → ℚ) : ℚ :=
  (Finset.univ.sup' Finset.univ_nonempty fun j => XtYcol X y j) / n

/-- `alpha_max = norm(X.T @ y, ord=np.inf) / 2.` for Logreg, line 182. -/
def alphaMaxLogreg {n p : ℕ} [Nonempty (Fin p)] (X : Fin n → Fin p → ℚ)
    (y : Fin n → ℚ) : ℚ :=
  (Finset.univ.sup' Finset.univ_nonempty fun j => |XtYcol X y j|) / 2

/-! ### Concrete instantiations used to evaluate the model on inputs -/

/-- An inner solver that returns its warm start unchanged, with a single
zero duality gap. -/
def idSolver : SolverCall → SolverResult := fun c => ⟨c.w, c.theta, [0], c.Xw⟩

/-- An inner solver whose reported duality gap is always 5. -/
def gapSolver : SolverCall → SolverResult := fun c => ⟨c.w, c.theta, [5], c.Xw⟩

/-- An inner solver that always returns the all-zero primal `[0, 0]`. -/
def zeroSolver : SolverCall → SolverResult := fun c => ⟨[0, 0], c.theta, [0], c.Xw⟩

/-- A trivial stand-in for the variant-specific initial dual point. -/
def theta0 : List ℚ → ℚ → List ℚ := fun xw _ => xw

/-- A `celer_mtl` stand-in that returns its inputs with zero gap. -/
def mSolver : MtlCall → MtlResult := fun c => ⟨c.W, c.theta, 0, c.R⟩

/-- A concrete `mtl_path` environment with two grid points. -/
def mEnv : MtlEnv := ⟨mSolver, [2, 1], 3, [[1]], [[0]]⟩

/-- Lasso arguments with a two-point grid, `p0 = 5`, `tol = 1`. -/
def aLasso : CelerArgs :=
  ⟨"lasso", [1], 2, some [2, 1], none, 5, 1, none, true, true⟩

/-- Lasso arguments whose caller-supplied grid has a duplicated value. -/
def aDup : CelerArgs :=
  ⟨"lasso", [1], 2, some [1, 1], none, 10, 1, none, false, false⟩

/-- Arguments with an unsupported problem name. -/
def aBad : CelerArgs :=
  ⟨"foo", [1], 2, some [1], none, 10, 1, none, false, false⟩

/-- Lasso arguments with a warm-start vector `coef_init = [3, 0]`. -/
def aCI : CelerArgs :=
  ⟨"lasso", [1], 2, some [2, 1], some [3, 0], 5, 1, none, false, false⟩

/-- The results of running `aLasso` with the gap-5 solver. -/
def cr1 : CelerResults := celerRun aLasso gapSolver [] id theta0 .lasso

/-- The results of running `aLasso` with the all-zero solver. -/
def cr4 : CelerResults := celerRun aLasso zeroSolver [] id theta0 .lasso

/-- The results of running `aDup` (duplicated grid values). -/
def crDup : CelerResults := celerRun aDup idSolver [] id theta0 .lasso

/-- The results of running `aCI` (warm-started first grid point). -/
def crCI : CelerResults := celerRun aCI idSolver [] id theta0 .lasso

/-- Lasso arguments whose caller-supplied grid is in ascending order. -/
def aUnsorted : CelerArgs :=
  ⟨"lasso", [1], 2, some [1, 2], none, 10, 1, none, false, false⟩

/-- The results of running `aUnsorted`. -/
def crUnsorted : CelerResults := celerRun aUnsorted idSolver [] id theta0 .lasso

/-- A one-sample, one-feature design matrix `X = [[1]]`. -/
def X1 : Fin 1 → Fin 1 → ℚ := fun _ _ => 1

/-- The one-sample target `y = [1]`. -/
def y1 : Fin 1 → ℚ := fun _ => 1

/-! ## Helper lemmas -/

theorem getD_concat {α : Type} (l : List α) (a d : α) :
    (l ++ [a]).getD l.length d = a := by
  induction l with
  | nil => rfl
  | cons x xs ih => exact ih

theorem getD_concat_of_length {α : Type} {l : List α} {t : ℕ}
    (h : l.length = t) (a d : α) : (l ++ [a]).getD t d = a :=
  h ▸ getD_concat l a d

theorem scanl_add_head? (l : List ℕ) (a : ℕ) :
    (l.scanl (· + ·) a).head? = some a := by
  cases l <;> simp [List.scanl_nil, List.scanl_cons]

theorem scanl_add_getLast? (l : List ℕ) :
    ∀ a : ℕ, (l.scanl (· + ·) a).getLast? = some (a + l.sum) := by
  induction l with
  | nil => intro a; simp [List.scanl_nil]
  | cons x xs ih =>
      intro a
      rw [List.scanl_cons, List.getLast?_append, ih (a + x)]
      simp [Option.or, Nat.add_assoc]

theorem scanl_add_chain' (l : List ℕ) :
    ∀ a : ℕ, (l.scanl (· + ·) a).Chain' (· ≤ ·) := by
  induction l with
  | nil => intro a; simp [List.scanl_nil]
  | cons x xs ih =>
      intro a
      rw [List.scanl_cons]
      have h1 : ([a] ++ List.scanl (· + ·) (a + x) xs)
          = a :: List.scanl (· + ·) (a + x) xs := rfl
      rw [h1, List.chain'_cons']
      refine ⟨?_, ih (a + x)⟩
      intro y hy
      rw [scanl_add_head? xs (a + x)] at hy
      simp only [Option.mem_def, Option.some.injEq] at hy
      omega

theorem cumsum_cons_zero (l : List ℕ) : cumsum (0 :: l) = 0 :: cumsum l := by
  cases l <;> simp [cumsum, List.scanl_cons, List.scanl_nil]

theorem cumsum_zero_cons_eq_scanl (l : List ℕ) :
    cumsum (0 :: l) = l.scanl (· + ·) 0 := by
  simp [cumsum, List.scanl_cons]

theorem range_map_getLast? (f : ℕ → ℕ) (m : ℕ) :
    ((List.range (m + 1)).map f).getLast? = some (f m) := by
  rw [List.range_succ, List.map_append, List.getLast?_append]
  simp

/-! ## C2: `_grp_converter` is the claimed pure conversion -/

/-- C2: `_grp_converter` is a pure function: an integer group size `k`
(with `0 < k` and `k` dividing `n_features`) yields the contiguous
boundaries `[0, k, 2k, ..., n_features]` (so `n_features / k` groups of
size `k`, the last boundary being `n_features`) with the identity index
array; a list of sizes yields the cumulative sums of the sizes with a `0`
in front, again with the identity index permutation; a list of index lists
yields the cumulative group sizes with a `0` in front and the
concatenation of the lists, preserving each list's internal order. -/
theorem C2_grp_converter_pure :
    (∀ k n, 0 < k → n % k = 0 →
      _grp_converter (.size k) n =
        .ok ((List.range (n / k + 1)).map (fun i => k * i), List.range n) ∧
      ((List.range (n / k + 1)).map (fun i => k * i)).getLast? = some n) ∧
    (∀ x l n, _grp_converter (.sizes (x :: l)) n =
        .ok (0 :: cumsum (x :: l), List.range n)) ∧
    (∀ g gs n, _grp_converter (.lists (g :: gs)) n =
        .ok (0 :: cumsum ((g :: gs).map List.length), (g :: gs).flatten)) := by
  refine ⟨?_, ?_, ?_⟩
  · intro k n hk hmod
    constructor
    · simp only [_grp_converter]
      rw [if_neg (by omega), if_neg (by simp [hmod])]
    · rw [range_map_getLast?, Nat.mul_div_cancel' (Nat.dvd_of_mod_eq_zero hmod)]
  · intro x l n
    show Except.ok (cumsum (0 :: (x :: l)), List.range n) = _
    rw [cumsum_cons_zero]
  · intro g gs n
    show Except.ok (cumsum (0 :: (g :: gs).map List.length), (g :: gs).flatten) = _
    rw [cumsum_cons_zero]

/-- Witness for C2 at concrete inputs: group size 2 over 4 features, the
size list `[1, 2]` over 3 features, and the index lists `[[2, 0], [1]]`
over 3 features. -/
theorem C2_witness :
    (0 < 2 ∧ 4 % 2 = 0 ∧
      _grp_converter (.size 2) 4 = .ok ([0, 2, 4], [0, 1, 2, 3])) ∧
    _grp_converter (.sizes [1, 2]) 3 = .ok ([0, 1, 3], [0, 1, 2]) ∧
    _grp_converter (.lists [[2, 0], [1]]) 3 = .ok ([0, 2, 3], [2, 0, 1]) := by
  have h := C2_grp_converter_pure
  refine ⟨⟨by decide, by decide, ?_⟩, ?_, ?_⟩
  · rw [(h.1 2 4 (by decide) (by decide)).1]; rfl
  · rw [h.2.1 1 [2] 3]; rfl
  · rw [h.2.2 [2, 0] [[1]] 3]; rfl

/-! ## C9: the Partition invariant -/

/-- C9 counterexample: the claim says every accepted `groups` argument
yields a partition satisfying the invariant, but `_grp_converter` performs
no validation of a caller-supplied size list: sizes `[2, 3]` with only 4
features are accepted and produce `grp_ptr = [0, 2, 5]`, which does not
end at `n_features = 4`. -/
theorem C9_counterexample :
    _grp_converter (.sizes [2, 3]) 4 = .ok ([0, 2, 5], [0, 1, 2, 3]) ∧
    ¬ partitionInvariant [0, 2, 5] [0, 1, 2, 3] 4 :=
  ⟨rfl, fun h => absurd h.2.2.1 (by decide)⟩

/-- C9 amended: the Partition invariant holds unconditionally for an
integer group size accepted by `_grp_converter`; for a caller-supplied
list of sizes it holds exactly when the sizes sum to `n_features`; for a
caller-supplied list of index lists it holds exactly when the
concatenation of the lists is a permutation of `[0, n_features)` —
`_grp_converter` itself never checks the latter two conditions. -/
theorem C9_amended :
    (∀ k n ptr idx, _grp_converter (.size k) n = .ok (ptr, idx) →
        partitionInvariant ptr idx n) ∧
    (∀ l n ptr idx, _grp_converter (.sizes l) n = .ok (ptr, idx) →
        (partitionInvariant ptr idx n ↔ l.sum = n)) ∧
    (∀ ls n ptr idx, _grp_converter (.lists ls) n = .ok (ptr, idx) →
        (partitionInvariant ptr idx n ↔ List.Perm ls.flatten (List.range n))) := by
  refine ⟨?_, ?_, ?_⟩
  · intro k n ptr idx hok
    simp only [_grp_converter] at hok
    by_cases h1 : k = 0
    · rw [if_pos h1] at hok; exact absurd hok (by simp)
    · rw [if_neg h1] at hok
      by_cases h2 : n % k ≠ 0
      · rw [if_pos h2] at hok; exact absurd hok (by simp)
      rw [if_neg h2] at hok
      simp only [Except.ok.injEq, Prod.mk.injEq] at hok
      obtain ⟨hptr, hidx⟩ := hok
      have hmod : n % k = 0 := by simpa using h2
      refine ⟨?_, ?_, ?_, ?_⟩
      · rw [← hptr]
        have hp : ((List.range (n / k + 1)).map (fun i => k * i)).Pairwise (· ≤ ·) := by
          refine List.Pairwise.map _ ?_ (List.pairwise_lt_range _)
          intro a b hab
          exact Nat.mul_le_mul_left k (Nat.le_of_lt hab)
        exact hp.chain'
      · rw [← hptr, List.range_succ_eq_map, List.map_cons]
        simp
      · rw [← hptr, range_map_getLast?,
          Nat.mul_div_cancel' (Nat.dvd_of_mod_eq_zero hmod)]
      · rw [← hidx]
  · intro l n ptr idx hok
    match l with
    | [] => exact absurd hok (by simp [_grp_converter])
    | x :: xs =>
        have hok' : (cumsum (0 :: (x :: xs)), List.range n) = (ptr, idx) := by
          simpa [_grp_converter] using hok
        obtain ⟨hptr, hidx⟩ := Prod.mk.injEq .. ▸ hok'
        rw [cumsum_zero_cons_eq_scanl] at hptr
        constructor
        · rintro ⟨-, -, hlast, -⟩
          rw [← hptr, scanl_add_getLast?] at hlast
          simp only [Option.some.injEq] at hlast
          omega
        · intro hsum
          refine ⟨?_, ?_, ?_, ?_⟩
          · rw [← hptr]; exact scanl_add_chain' _ 0
          · rw [← hptr]; exact scanl_add_head? _ 0
          · rw [← hptr, scanl_add_getLast?]; simpa using hsum
          · rw [← hidx]
  · intro ls n ptr idx hok
    match ls with
    | [] => exact absurd hok (by simp [_grp_converter])
    | g :: gs =>
        have hok' : (cumsum (0 :: ((g :: gs).map List.length)), (g :: gs).flatten)
            = (ptr, idx) := by
          simpa [_grp_converter] using hok
        obtain ⟨hptr, hidx⟩ := Prod.mk.injEq .. ▸ hok'
        rw [cumsum_zero_cons_eq_scanl] at hptr
        constructor
        · rintro ⟨-, -, -, hperm⟩
          rw [← hidx] at hperm
          exact hperm
        · intro hperm
          have hlen : ((g :: gs).map List.length).sum = n := by
            have h1 : (g :: gs).flatten.length = n := by
              rw [hperm.length_eq, List.length_range]
            rw [← h1, List.length_flatten]
          refine ⟨?_, ?_, ?_, ?_⟩
          · rw [← hptr]; exact scanl_add_chain' _ 0
          · rw [← hptr]; exact scanl_add_head? _ 0
          · rw [← hptr, scanl_add_getLast?]; simpa using hlen
          · rw [← hidx]; exact hperm

/-- Witness for C9 at concrete inputs: a size list summing to
`n_features` satisfies the invariant, and an integer group size does. -/
theorem C9_witness :
    (_grp_converter (.sizes [2, 2]) 4 = .ok ([0, 2, 4], [0, 1, 2, 3]) ∧
      (partitionInvariant [0, 2, 4] [0, 1, 2, 3] 4 ↔ [2, 2].sum = 4)) ∧
    (_grp_converter (.size 3) 3 = .ok ([0, 3], [0, 1, 2]) ∧
      partitionInvariant [0, 3] [0, 1, 2] 3) :=
  ⟨⟨rfl, C9_amended.2.1 [2, 2] 4 _ _ rfl⟩, ⟨rfl, C9_amended.1 3 3 _ _ rfl⟩⟩

/-! ## The path loop: structural lemmas -/

theorem runPath_succ (env : PathEnv) (N : ℕ) :
    runPath env (N + 1) = pathStep env (runPath env N) N := rfl

theorem runPath_lengths (env : PathEnv) (N : ℕ) :
    (runPath env N).coefs.length = N ∧ (runPath env N).thetas.length = N ∧
    (runPath env N).dualGaps.length = N ∧ (runPath env N).nIters.length = N ∧
    (runPath env N).calls.length = N := by
  induction N with
  | zero => exact ⟨rfl, rfl, rfl, rfl, rfl⟩
  | succ m ih =>
      obtain ⟨i1, i2, i3, i4, i5⟩ := ih
      simp only [runPath, pathStep, List.length_append, List.length_cons,
        List.length_nil]
      omega

/-- Entries strictly below `N` of the result arrays are unchanged by all
later loop iterations. -/
theorem runPath_stable (env : PathEnv) :
    ∀ M N, N ≤ M → ∀ t, t < N →
      (runPath env M).coefs.getD t [] = (runPath env N).coefs.getD t [] ∧
      (runPath env M).thetas.getD t [] = (runPath env N).thetas.getD t [] ∧
      (runPath env M).dualGaps.getD t 0 = (runPath env N).dualGaps.getD t 0 ∧
      (runPath env M).nIters.getD t 0 = (runPath env N).nIters.getD t 0 ∧
      (runPath env M).calls.getD t default = (runPath env N).calls.getD t default := by
  intro M
  induction M with
  | zero =>
      intro N hN t ht
      omega
  | succ m ih =>
      intro N hN t ht
      rcases Nat.eq_or_lt_of_le hN with h | h

      · subst h; exact ⟨rfl, rfl, rfl, rfl, rfl⟩
      · have hNm : N ≤ m := Nat.lt_succ_iff.mp h
        have htm : t < m := lt_of_lt_of_le ht hNm
        have hlen := runPath_lengths env m
        obtain ⟨e1, e2, e3, e4, e5⟩ := ih N hNm t ht
        refine ⟨?_, ?_, ?_, ?_, ?_⟩ <;> simp only [runPath, pathStep]
        · rw [List.getD_append _ _ _ t (by rw [hlen.1]; exact htm)]; exact e1
        · rw [List.getD_append _ _ _ t (by rw [hlen.2.1]; exact htm)]; exact e2
        · rw [List.getD_append _ _ _ t (by rw [hlen.2.2.1]; exact htm)]; exact e3
        · rw [List.getD_append _ _ _ t (by rw [hlen.2.2.2.1]; exact htm)]; exact e4
        · rw [List.getD_append _ _ _ t (by rw [hlen.2.2.2.2]; exact htm)]; exact e5

/-- The entry written at grid point `t`: the call is `mkCall` on the state
after `t` iterations, and the stored column `t` of each result array is
the corresponding component of the solver's output on that call. -/
theorem runPath_entry (env : PathEnv) (t : ℕ) :
    (runPath env (t + 1)).calls.getD t default = mkCall env (runPath env t) t ∧
    (runPath env (t + 1)).coefs.getD t []
      = (env.solver (mkCall env (runPath env t) t)).w ∧
    (runPath env (t + 1)).thetas.getD t []
      = (env.solver (mkCall env (runPath env t) t)).theta ∧
    (runPath env (t + 1)).dualGaps.getD t 0
      = (env.solver (mkCall env (runPath env t) t)).gaps.getLastD 0 ∧
    (runPath env (t + 1)).nIters.getD t 0
      = (env.solver (mkCall env (runPath env t) t)).gaps.length := by
  have hlen := runPath_lengths env t
  refine ⟨?_, ?_, ?_, ?_, ?_⟩ <;> simp only [runPath, pathStep]
  · exact getD_concat_of_length hlen.2.2.2.2 _ _
  · exact getD_concat_of_length hlen.1 _ _
  · exact getD_concat_of_length hlen.2.1 _ _
  · exact getD_concat_of_length hlen.2.2.1 _ _
  · exact getD_concat_of_length hlen.2.2.2.1 _ _

/-- The warning record: `t` was warned about iff `t` is a solved grid
point whose stored duality gap exceeds `tol`. -/
theorem runPath_warns_mem (env : PathEnv) :
    ∀ N t, t ∈ (runPath env N).warns ↔
      t < N ∧ env.tol < (runPath env N).dualGaps.getD t 0 := by
  intro N
  induction N with
  | zero => intro t; simp [runPath, initState]
  | succ m ih =>
      intro t
      have hgap : (runPath env (m + 1)).dualGaps.getD m 0
          = (env.solver (mkCall env (runPath env m) m)).gaps.getLastD 0 :=
        (runPath_entry env m).2.2.2.1
      have hmem : t ∈ (runPath env (m + 1)).warns ↔
          t ∈ (runPath env m).warns ∨
            (env.tol < (env.solver (mkCall env (runPath env m) m)).gaps.getLastD 0
              ∧ t = m) := by
        simp only [runPath, pathStep, List.mem_append]
        constructor
        · rintro (h | h)
          · exact Or.inl h
          · by_cases hc :
              env.tol < (env.solver (mkCall env (runPath env m) m)).gaps.getLastD 0
            · rw [if_pos hc] at h
              exact Or.inr ⟨hc, by simpa using h⟩
            · rw [if_neg hc] at h
              exact absurd h (List.not_mem_nil t)
        · rintro (h | ⟨hc, rfl⟩)
          · exact Or.inl h
          · exact Or.inr (by rw [if_pos hc]; exact List.mem_singleton_self t)
      rw [hmem, ih t]
      by_cases htm : t < m
      · have hst := (runPath_stable env (m + 1) m (Nat.le_succ m) t htm).2.2.1
        rw [hst]
        constructor
        · rintro (⟨h1, h2⟩ | ⟨h1, h2⟩)
          · exact ⟨by omega, h2⟩
          · omega
        · rintro ⟨h1, h2⟩
          exact Or.inl ⟨htm, h2⟩
      · by_cases hteq : t = m
        · subst hteq
          rw [hgap]
          constructor
          · rintro (⟨h1, h2⟩ | ⟨h1, h2⟩)
            · omega
            · exact ⟨Nat.lt_succ_self t, h1⟩
          · rintro ⟨h1, h2⟩
            exact Or.inr ⟨h2, rfl⟩
        · constructor
          · rintro (⟨h1, h2⟩ | ⟨h1, h2⟩) <;> omega
          · rintro ⟨h1, h2⟩
            omega

/-! ## Sorting and `Except` helpers -/

theorem sortDesc_sorted (l : List ℚ) : (sortDesc l).Chain' (· ≥ ·) := by
  have h : List.Pairwise (· ≥ ·) (l.insertionSort (· ≤ ·)).reverse :=
    List.pairwise_reverse.mpr (List.sorted_insertionSort (· ≤ ·) l)
  exact h.chain'

theorem sortDesc_perm (l : List ℚ) : List.Perm (sortDesc l) l :=
  (List.reverse_perm _).trans (List.perm_insertionSort _ l)

theorem sortDesc_strict_of_nodup (l : List ℚ) (h : l.Nodup) :
    (sortDesc l).Chain' (· > ·) := by
  have hge : List.Pairwise (· ≥ ·) (sortDesc l) :=
    List.pairwise_reverse.mpr (List.sorted_insertionSort (· ≤ ·) l)
  have hnd : (sortDesc l).Nodup := ((sortDesc_perm l).nodup_iff).mpr h
  have hand := hge.and hnd
  exact (hand.imp fun hab => lt_of_le_of_ne hab.1 hab.2.symm).chain'

theorem exceptMap_error_iff {ε α β : Type} {f : α → β} {e : Except ε α}
    {err : ε} : e.map f = .error err ↔ e = .error err := by
  cases e <;> simp [Except.map]

theorem celer_path_ok_iff {a : CelerArgs} {solver : SolverCall → SolverResult}
    {grid : List ℚ} {cXw : List ℚ → List ℚ} {iTh : List ℚ → ℚ → List ℚ}
    {r : CelerResults} :
    celer_path a solver grid cXw iTh = .ok r ↔
      ∃ pt, validate a.pb a.y a.groups a.n_features = .ok pt ∧
        r = celerRun a solver grid cXw iTh pt.1 := by
  unfold celer_path
  cases validate a.pb a.y a.groups a.n_features <;> simp [Except.map, eq_comm]

/-! ## C1: convergence warning iff gap exceeds tol, computation continues -/

/-- C1: in a completed `celer_path` run, a `ConvergenceWarning` was issued
at grid point `t` if and only if the duality gap stored for `t` exceeds
`tol`; the warning is non-fatal — the run returns `.ok` with results for
every grid point, including `thetas` when `return_thetas` and the
iteration counts when `return_n_iter`. -/
theorem C1_convergence_warning (a : CelerArgs)
    (solver : SolverCall → SolverResult) (grid : List ℚ)
    (cXw : List ℚ → List ℚ) (iTh : List ℚ → ℚ → List ℚ) (r : CelerResults)
    (hr : celer_path a solver grid cXw iTh = .ok r) :
    (∀ t, t ∈ r.warns ↔ t < r.alphas.length ∧ a.tol < r.dualGaps.getD t 0) ∧
    r.coefs.length = r.alphas.length ∧
    r.dualGaps.length = r.alphas.length ∧
    (a.return_thetas = true →
      ∃ th, r.thetas = some th ∧ th.length = r.alphas.length) ∧
    (a.return_n_iter = true →
      ∃ ni, r.nIters = some ni ∧ ni.length = r.alphas.length) := by
  obtain ⟨pt, hval, rfl⟩ := celer_path_ok_iff.mp hr
  simp only [celerRun]
  have hlen := runPath_lengths (mkEnv a solver grid cXw iTh pt.1)
    (gridOf a grid).length
  refine ⟨?_, hlen.1, hlen.2.2.1, ?_, ?_⟩
  · intro t
    exact runPath_warns_mem (mkEnv a solver grid cXw iTh pt.1)
      (gridOf a grid).length t
  · intro hth
    refine ⟨_, ?_, hlen.2.1⟩
    simp [hth]
  · intro hni
    refine ⟨_, ?_, hlen.2.2.2.1⟩
    simp [hni]

/-- Witness for C1: a run whose solver always reports gap 5 with
`tol = 1` warns at both grid points yet returns full results. -/
theorem C1_witness :
    celer_path aLasso gapSolver [] id theta0 = .ok cr1 ∧
    (∀ t, t ∈ cr1.warns ↔
      t < cr1.alphas.length ∧ aLasso.tol < cr1.dualGaps.getD t 0) ∧
    cr1.warns = [0, 1] ∧ cr1.coefs.length = cr1.alphas.length :=
  ⟨rfl, (C1_convergence_warning aLasso gapSolver [] id theta0 cr1 rfl).1,
    by decide,
    (C1_convergence_warning aLasso gapSolver [] id theta0 cr1 rfl).2.1⟩

/-! ## C7: exactly one inner solve per grid point, in order -/

/-- C7: a completed `celer_path` run performs exactly one inner solve per
grid point — the trace of solver calls has one entry per alpha, the call
at position `t` carries `alphas[t]` (the first alpha included), and the
solve at `t` supplies exactly column `t` of `coefs`, row `t` of `thetas`,
entry `t` of `dual_gaps`, and entry `t` of the iteration counts. -/
theorem C7_one_solve_per_grid_point (a : CelerArgs)
    (solver : SolverCall → SolverResult) (grid : List ℚ)
    (cXw : List ℚ → List ℚ) (iTh : List ℚ → ℚ → List ℚ) (r : CelerResults)
    (hr : celer_path a solver grid cXw iTh = .ok r) :
    r.calls.length = r.alphas.length ∧
    r.coefs.length = r.alphas.length ∧
    ∀ t, t < r.alphas.length →
      (r.calls.getD t default).alpha = r.alphas.getD t 0 ∧
      r.coefs.getD t [] = (solver (r.calls.getD t default)).w ∧
      (∀ th, r.thetas = some th →
        th.getD t [] = (solver (r.calls.getD t default)).theta) ∧
      r.dualGaps.getD t 0 = (solver (r.calls.getD t default)).gaps.getLastD 0 ∧
      (∀ ni, r.nIters = some ni →
        ni.getD t 0 = (solver (r.calls.getD t default)).gaps.length) := by
  obtain ⟨pt, hval, rfl⟩ := celer_path_ok_iff.mp hr
  simp only [celerRun]
  set env := mkEnv a solver grid cXw iTh pt.1 with henv
  have hlen := runPath_lengths env (gridOf a grid).length
  refine ⟨hlen.2.2.2.2, hlen.1, ?_⟩
  intro t ht
  have hstab := runPath_stable env (gridOf a grid).length (t + 1) ht t
    (Nat.lt_succ_self t)
  have hent := runPath_entry env t
  have hc : (runPath env (gridOf a grid).length).calls.getD t default
      = mkCall env (runPath env t) t := by rw [hstab.2.2.2.2, hent.1]
  refine ⟨?_, ?_, ?_, ?_, ?_⟩
  · rw [hc]; rfl
  · rw [hstab.1, hent.2.1, hc]; rfl
  · intro th hth
    have hth' : th = (runPath env (gridOf a grid).length).thetas := by
      by_cases hb : a.return_thetas = true
      · rw [if_pos hb] at hth; exact (Option.some.injEq .. ▸ hth).symm
      · rw [if_neg hb] at hth; exact absurd hth (by simp)
    rw [hth', hstab.2.1, hent.2.2.1, hc]; rfl
  · rw [hstab.2.2.1, hent.2.2.2.1, hc]; rfl
  · intro ni hni
    have hni' : ni = (runPath env (gridOf a grid).length).nIters := by
      by_cases hb : a.return_n_iter = true
      · rw [if_pos hb] at hni; exact (Option.some.injEq .. ▸ hni).symm
      · rw [if_neg hb] at hni; exact absurd hni (by simp)
    rw [hni', hstab.2.2.2.1, hent.2.2.2.2, hc]; rfl

/-- Witness for C7 at a concrete two-point run (first grid point
included: its call carries `alphas[0] = 2`). -/
theorem C7_witness :
    celer_path aLasso gapSolver [] id theta0 = .ok cr1 ∧
    (0 : ℕ) < cr1.alphas.length ∧
    cr1.calls.length = cr1.alphas.length ∧
    (cr1.calls.getD 0 default).alpha = cr1.alphas.getD 0 0 ∧
    cr1.coefs.getD 0 [] = (gapSolver (cr1.calls.getD 0 default)).w :=
  ⟨rfl, by decide,
    (C7_one_solve_per_grid_point aLasso gapSolver [] id theta0 cr1 rfl).1,
    ((C7_one_solve_per_grid_point aLasso gapSolver [] id theta0 cr1 rfl).2.2
      0 (by decide)).1,
    ((C7_one_solve_per_grid_point aLasso gapSolver [] id theta0 cr1 rfl).2.2
      0 (by decide)).2.1⟩

/-! ## C4: the warm-started working-set size -/

/-- C4 counterexample: the claim says every warm-started solve receives
working-set size `min(nnz(warm start), p0)`.  With `p0 = 5` and a solver
that returns the all-zero vector, the solve at grid point 1 is
warm-started from `coefs[:, 0] = [0, 0]` (`nnz = 0`), so the claim's
value is `min 0 5 = 0`, but the run passes `max(nnz, 1) = 1`. -/
theorem C4_counterexample :
    celer_path aLasso zeroSolver [] id theta0 = .ok cr4 ∧
    cr4.coefs.getD 0 [] = [0, 0] ∧
    (cr4.calls.getD 1 default).p0 = 1 ∧
    min (nnz (cr4.coefs.getD 0 [])) aLasso.p0 = 0 :=
  ⟨rfl, rfl, rfl, rfl⟩

/-- C4 amended: for every grid point `t > 0` the working-set size passed
to the inner solver is the **larger** of the number of non-zero
coordinates of the warm-start vector (the stored previous solution) and
1 — the `p0` argument plays no role there; for the first grid point with
`coef_init` supplied it is the larger of the warm start's non-zero count
and `p0`. -/
theorem C4_amended_working_set_size (a : CelerArgs)
    (solver : SolverCall → SolverResult) (grid : List ℚ)
    (cXw : List ℚ → List ℚ) (iTh : List ℚ → ℚ → List ℚ) (r : CelerResults)
    (hr : celer_path a solver grid cXw iTh = .ok r) :
    (∀ t, 0 < t → t < r.alphas.length →
      (r.calls.getD t default).p0 = max (nnz (r.coefs.getD (t - 1) [])) 1) ∧
    (∀ ci, a.coef_init = some ci → 0 < r.alphas.length →
      (r.calls.getD 0 default).p0 = max (nnz ci) a.p0) := by
  obtain ⟨pt, hval, rfl⟩ := celer_path_ok_iff.mp hr
  simp only [celerRun]
  set env := mkEnv a solver grid cXw iTh pt.1 with henv
  constructor
  · intro t ht htN
    have hstab := runPath_stable env (gridOf a grid).length (t + 1) htN t
      (Nat.lt_succ_self t)
    have hc : (runPath env (gridOf a grid).length).calls.getD t default
        = mkCall env (runPath env t) t := by
      rw [hstab.2.2.2.2, (runPath_entry env t).1]
    rw [hc]
    have hp : (mkCall env (runPath env t) t).p0
        = max (nnz ((runPath env t).coefs.getD (t - 1) [])) 1 := by
      simp only [mkCall, warmStart, if_neg (Nat.pos_iff_ne_zero.mp ht)]
    rw [hp,
      (runPath_stable env (gridOf a grid).length t (by omega) (t - 1)
        (by omega)).1]
  · intro ci hci hN
    have hstab := runPath_stable env (gridOf a grid).length 1 hN 0
      Nat.one_pos
    have hc : (runPath env (gridOf a grid).length).calls.getD 0 default
        = mkCall env (runPath env 0) 0 := by
      rw [hstab.2.2.2.2, (runPath_entry env 0).1]
    rw [hc]
    have hci' : env.coef_init = some ci := hci
    simp only [mkCall, warmStart, if_pos rfl, hci']
    rfl

/-- Witness for C4 as amended: at grid point 1 the size is
`max(nnz([0, 0]), 1) = 1`, and with `coef_init = [3, 0]` the first grid
point's size is `max(1, 5) = 5`. -/
theorem C4_witness :
    ((cr4.calls.getD 1 default).p0 = max (nnz (cr4.coefs.getD 0 [])) 1 ∧
      (cr4.calls.getD 1 default).p0 = 1) ∧
    ((crCI.calls.getD 0 default).p0 = max (nnz [(3 : ℚ), 0]) aCI.p0 ∧
      (crCI.calls.getD 0 default).p0 = 5) :=
  ⟨⟨(C4_amended_working_set_size aLasso zeroSolver [] id theta0 cr4 rfl).1
      1 (by decide) (by decide), by decide⟩,
   ⟨(C4_amended_working_set_size aCI idSolver [] id theta0 crCI rfl).2
      [3, 0] rfl (by decide), by decide⟩⟩

/-! ## C6: caller-supplied grids are re-sorted descending -/

/-- C6 counterexample: the claim says the returned alphas are sorted
*strictly* descending.  A caller-supplied grid `[1, 1]` is accepted and
returned as `[1, 1]`, which is not strictly descending. -/
theorem C6_counterexample :
    celer_path aDup idSolver [] id theta0 = .ok crDup ∧
    crDup.alphas = [1, 1] ∧
    ¬ List.Chain' (· > ·) crDup.alphas := by
  refine ⟨rfl, rfl, ?_⟩
  intro h
  exact absurd (List.chain'_cons.mp (show List.Chain' (· > ·)
    ([1, 1] : List ℚ) from h)).1 (by norm_num)

/-- C6 amended: every caller-supplied alphas array is replaced by its
re-sorted version in descending (non-increasing, not necessarily strict)
order, in both `celer_path` and `mtl_path`, and the returned alphas array
is that sorted version — a permutation of the input, sorted strictly
descending whenever the supplied values are pairwise distinct. -/
theorem C6_amended_sorted_descending (l : List ℚ) (a : CelerArgs)
    (ha : a.alphas = some l) (solver : SolverCall → SolverResult)
    (grid : List ℚ) (cXw : List ℚ → List ℚ) (iTh : List ℚ → ℚ → List ℚ)
    (r : CelerResults) (hr : celer_path a solver grid cXw iTh = .ok r)
    (msolver : MtlCall → MtlResult) (Y W0 : List (List ℚ)) (grid' : List ℚ)
    (p0 : ℕ) (rt : Bool) :
    r.alphas = sortDesc l ∧
    (mtl_path msolver Y W0 (some l) grid' p0 rt).alphas = sortDesc l ∧
    (sortDesc l).Chain' (· ≥ ·) ∧
    List.Perm (sortDesc l) l ∧
    (l.Nodup → (sortDesc l).Chain' (· > ·)) := by
  obtain ⟨pt, hval, rfl⟩ := celer_path_ok_iff.mp hr
  refine ⟨?_, rfl, sortDesc_sorted l, sortDesc_perm l,
    sortDesc_strict_of_nodup l⟩
  simp only [celerRun, gridOf, ha]

/-- Witness for C6: the unsorted grid `[1, 2]` comes back as `[2, 1]`
from both path functions. -/
theorem C6_witness :
    celer_path aUnsorted idSolver [] id theta0 = .ok crUnsorted ∧
    crUnsorted.alphas = sortDesc [1, 2] ∧
    (mtl_path mSolver [[1]] [[0]] (some [1, 2]) [] 3 false).alphas
      = sortDesc [1, 2] ∧
    sortDesc [(1 : ℚ), 2] = [2, 1] :=
  ⟨rfl,
    (C6_amended_sorted_descending [1, 2] aUnsorted rfl idSolver [] id theta0
      crUnsorted rfl mSolver [[1]] [[0]] [] 3 false).1,
    (C6_amended_sorted_descending [1, 2] aUnsorted rfl idSolver [] id theta0
      crUnsorted rfl mSolver [[1]] [[0]] [] 3 false).2.1,
    rfl⟩

/-! ## The `mtl_path` loop: structural lemmas -/

theorem mtlRun_lengths (env : MtlEnv) (N : ℕ) :
    (mtlRun env N).coefs.length = N ∧ (mtlRun env N).thetas.length = N ∧
    (mtlRun env N).gaps.length = N ∧ (mtlRun env N).calls.length = N := by
  induction N with
  | zero => exact ⟨rfl, rfl, rfl, rfl⟩
  | succ m ih =>
      obtain ⟨i1, i2, i3, i4⟩ := ih
      simp only [mtlRun, mtlStep, List.length_append, List.length_cons,
        List.length_nil]
      omega

/-- Entries strictly below `N` of `mtl_path`'s result arrays are unchanged
by all later loop iterations. -/
theorem mtlRun_stable (env : MtlEnv) :
    ∀ M N, N ≤ M → ∀ t, t < N →
      (mtlRun env M).coefs.getD t [] = (mtlRun env N).coefs.getD t [] ∧
      (mtlRun env M).thetas.getD t [] = (mtlRun env N).thetas.getD t [] ∧
      (mtlRun env M).gaps.getD t 0 = (mtlRun env N).gaps.getD t 0 ∧
      (mtlRun env M).calls.getD t default = (mtlRun env N).calls.getD t default := by
  intro M
  induction M with
  | zero => intro N hN t ht; omega
  | succ m ih =>
      intro N hN t ht
      rcases Nat.eq_or_lt_of_le hN with h | h
      · subst h; exact ⟨rfl, rfl, rfl, rfl⟩
      · have hNm : N ≤ m := Nat.lt_succ_iff.mp h
        have htm : t < m := lt_of_lt_of_le ht hNm
        have hlen := mtlRun_lengths env m
        obtain ⟨e1, e2, e3, e4⟩ := ih N hNm t ht
        refine ⟨?_, ?_, ?_, ?_⟩ <;> simp only [mtlRun, mtlStep]
        · rw [List.getD_append _ _ _ t (by rw [hlen.1]; exact htm)]; exact e1
        · rw [List.getD_append _ _ _ t (by rw [hlen.2.1]; exact htm)]; exact e2
        · rw [List.getD_append _ _ _ t (by rw [hlen.2.2.1]; exact htm)]; exact e3
        · rw [List.getD_append _ _ _ t (by rw [hlen.2.2.2]; exact htm)]; exact e4

/-- The entry written at grid point `t` of the `mtl_path` loop. -/
theorem mtlRun_entry (env : MtlEnv) (t : ℕ) :
    (mtlRun env (t + 1)).calls.getD t default = mkMtlCall env (mtlRun env t) t ∧
    (mtlRun env (t + 1)).coefs.getD t []
      = (env.solver (mkMtlCall env (mtlRun env t) t)).W ∧
    (mtlRun env (t + 1)).thetas.getD t []
      = (env.solver (mkMtlCall env (mtlRun env t) t)).theta ∧
    (mtlRun env (t + 1)).gaps.getD t 0
      = (env.solver (mkMtlCall env (mtlRun env t) t)).gap := by
  have hlen := mtlRun_lengths env t
  refine ⟨?_, ?_, ?_, ?_⟩ <;> simp only [mtlRun, mtlStep]
  · exact getD_concat_of_length hlen.2.2.2 _ _
  · exact getD_concat_of_length hlen.1 _ _
  · exact getD_concat_of_length hlen.2.1 _ _
  · exact getD_concat_of_length hlen.2.2.1 _ _

/-! ## C8: warm-start copying and the frame property -/

/-- C8 counterexample: the claim says each grid point's inner solve in
`mtl_path` operates on a private copy of the warm-started dual state,
never aliasing the previous grid point's arrays.  In the code, `theta` is
allocated once before the loop (`homotopy.py` line 399) and the same
buffer is passed to `celer_mtl` at every grid point: on a concrete
two-point run the dual-state buffer handed to the solve at grid point 1
is identical (same allocation identifier) to the one handed to the solve
at grid point 0, while the primal `W` buffers are distinct copies. -/
theorem C8_counterexample :
    ((mtl_path mSolver [[1]] [[0]] (some [2, 1]) [] 3 false).calls.getD 1
        default).thetaRef
      = ((mtl_path mSolver [[1]] [[0]] (some [2, 1]) [] 3 false).calls.getD 0
        default).thetaRef ∧
    ((mtl_path mSolver [[1]] [[0]] (some [2, 1]) [] 3 false).calls.getD 1
        default).wRef
      ≠ ((mtl_path mSolver [[1]] [[0]] (some [2, 1]) [] 3 false).calls.getD 0
        default).wRef :=
  ⟨rfl, by decide⟩

/-- C8 amended: in `celer_path` each grid point's inner solve receives
fresh private copies of the warm-started primal and dual state (pairwise
distinct buffers across grid points), and the stored results of grid
points before `N` are unchanged by all later solves; in `mtl_path` the
primal `W` is a fresh copy per grid point and the stored results are
likewise never touched again, but the dual `theta` buffer is allocated
once and shared — aliased — across all grid points' solves. -/
theorem C8_amended_warm_start_ownership (env : PathEnv) (menv : MtlEnv) :
    (∀ M N t, N ≤ M → t < N →
      (runPath env M).coefs.getD t [] = (runPath env N).coefs.getD t [] ∧
      (runPath env M).thetas.getD t [] = (runPath env N).thetas.getD t [] ∧
      (runPath env M).dualGaps.getD t 0 = (runPath env N).dualGaps.getD t 0) ∧
    (∀ N t, t < N →
      ((runPath env N).calls.getD t default).wRef = 2 * t ∧
      ((runPath env N).calls.getD t default).thetaRef = 2 * t + 1) ∧
    (∀ N t t', t < N → t' < N → t ≠ t' →
      ((runPath env N).calls.getD t default).wRef
        ≠ ((runPath env N).calls.getD t' default).wRef ∧
      ((runPath env N).calls.getD t default).thetaRef
        ≠ ((runPath env N).calls.getD t' default).thetaRef) ∧
    (∀ N t t', t < N → t' < N →
      ((mtlRun menv N).calls.getD t default).thetaRef
        = ((mtlRun menv N).calls.getD t' default).thetaRef) ∧
    (∀ N t t', t < N → t' < N → t ≠ t' →
      ((mtlRun menv N).calls.getD t default).wRef
        ≠ ((mtlRun menv N).calls.getD t' default).wRef) ∧
    (∀ M N t, N ≤ M → t < N →
      (mtlRun menv M).coefs.getD t [] = (mtlRun menv N).coefs.getD t [] ∧
      (mtlRun menv M).thetas.getD t [] = (mtlRun menv N).thetas.getD t [] ∧
      (mtlRun menv M).gaps.getD t 0 = (mtlRun menv N).gaps.getD t 0) := by
  have hrefs : ∀ N t, t < N →
      ((runPath env N).calls.getD t default).wRef = 2 * t ∧
      ((runPath env N).calls.getD t default).thetaRef = 2 * t + 1 := by
    intro N t ht
    have hc : (runPath env N).calls.getD t default
        = mkCall env (runPath env t) t := by
      rw [(runPath_stable env N (t + 1) ht t (Nat.lt_succ_self t)).2.2.2.2,
        (runPath_entry env t).1]
    rw [hc]
    exact ⟨rfl, rfl⟩
  have hmrefs : ∀ N t, t < N →
      ((mtlRun menv N).calls.getD t default).wRef = 2 + t ∧
      ((mtlRun menv N).calls.getD t default).thetaRef = 1 := by
    intro N t ht
    have hc : (mtlRun menv N).calls.getD t default
        = mkMtlCall menv (mtlRun menv t) t := by
      rw [(mtlRun_stable menv N (t + 1) ht t (Nat.lt_succ_self t)).2.2.2,
        (mtlRun_entry menv t).1]
    rw [hc]
    exact ⟨rfl, rfl⟩
  refine ⟨?_, hrefs, ?_, ?_, ?_, ?_⟩
  · intro M N t hNM ht
    obtain ⟨h1, h2, h3, -, -⟩ := runPath_stable env M N hNM t ht
    exact ⟨h1, h2, h3⟩
  · intro N t t' ht ht' hne
    obtain ⟨w1, th1⟩ := hrefs N t ht
    obtain ⟨w2, th2⟩ := hrefs N t' ht'
    omega
  · intro N t t' ht ht'
    rw [(hmrefs N t ht).2, (hmrefs N t' ht').2]
  · intro N t t' ht ht' hne
    obtain ⟨w1, -⟩ := hmrefs N t ht
    obtain ⟨w2, -⟩ := hmrefs N t' ht'
    omega
  · intro M N t hNM ht
    obtain ⟨h1, h2, h3, -⟩ := mtlRun_stable menv M N hNM t ht
    exact ⟨h1, h2, h3⟩

/-- Witness for C8 as amended, on concrete two-point runs of both loops. -/
theorem C8_witness :
    ((runPath (mkEnv aLasso idSolver [] id theta0 .lasso) 2).coefs.getD 0 []
      = (runPath (mkEnv aLasso idSolver [] id theta0 .lasso) 1).coefs.getD 0 []) ∧
    (((runPath (mkEnv aLasso idSolver [] id theta0 .lasso) 2).calls.getD 0
        default).thetaRef
      ≠ ((runPath (mkEnv aLasso idSolver [] id theta0 .lasso) 2).calls.getD 1
        default).thetaRef) ∧
    (((mtlRun mEnv 2).calls.getD 0 default).thetaRef
      = ((mtlRun mEnv 2).calls.getD 1 default).thetaRef) ∧
    ((mtlRun mEnv 2).gaps.getD 0 0 = (mtlRun mEnv 1).gaps.getD 0 0) :=
  ⟨((C8_amended_warm_start_ownership (mkEnv aLasso idSolver [] id theta0
      .lasso) mEnv).1 2 1 0 (by decide) (by decide)).1,
   ((C8_amended_warm_start_ownership (mkEnv aLasso idSolver [] id theta0
      .lasso) mEnv).2.2.1 2 0 1 (by decide) (by decide) (by decide)).2,
   (C8_amended_warm_start_ownership (mkEnv aLasso idSolver [] id theta0
      .lasso) mEnv).2.2.2.1 2 0 1 (by decide) (by decide),
   ((C8_amended_warm_start_ownership (mkEnv aLasso idSolver [] id theta0
      .lasso) mEnv).2.2.2.2.2 2 1 0 (by decide) (by decide)).2.2⟩

/-! ## C10: `mtl_path`'s first working-set size is always 10 -/

/-- C10: in the `mtl_path` loop the first grid point's inner solve always
receives working-set size 10, whatever the `p0` argument (`homotopy.py`
line 412); for every later grid point the size is
`max(nnz(first-task column of the warm start), p0)` (line 409), so there
`p0` acts as a lower bound. -/
theorem C10_mtl_first_ws_size (env : MtlEnv) (N : ℕ) (h0 : 0 < N) :
    ((mtlRun env N).calls.getD 0 default).p_t = 10 ∧
    (∀ t, 0 < t → t < N →
      ((mtlRun env N).calls.getD t default).p_t
        = max (nnzCol0 ((mtlRun env N).coefs.getD (t - 1) [])) env.p0 ∧
      env.p0 ≤ ((mtlRun env N).calls.getD t default).p_t) := by
  constructor
  · have hc : (mtlRun env N).calls.getD 0 default
        = mkMtlCall env (mtlRun env 0) 0 := by
      rw [(mtlRun_stable env N 1 h0 0 Nat.one_pos).2.2.2,
        (mtlRun_entry env 0).1]
    rw [hc]
    rfl
  · intro t ht htN
    have hc : (mtlRun env N).calls.getD t default
        = mkMtlCall env (mtlRun env t) t := by
      rw [(mtlRun_stable env N (t + 1) htN t (Nat.lt_succ_self t)).2.2.2,
        (mtlRun_entry env t).1]
    have hp : (mkMtlCall env (mtlRun env t) t).p_t
        = max (nnzCol0 ((mtlRun env t).coefs.getD (t - 1) [])) env.p0 := by
      simp only [mkMtlCall, if_neg (Nat.pos_iff_ne_zero.mp ht)]
    constructor
    · rw [hc, hp, (mtlRun_stable env N t (by omega) (t - 1) (by omega)).1]
    · rw [hc, hp]
      exact le_max_right _ _

/-- Witness for C10 on a concrete two-point run with `p0 = 3`. -/
theorem C10_witness :
    (0 : ℕ) < 2 ∧
    ((mtlRun mEnv 2).calls.getD 0 default).p_t = 10 ∧
    ((mtlRun mEnv 2).calls.getD 1 default).p_t
      = max (nnzCol0 ((mtlRun mEnv 2).coefs.getD 0 [])) mEnv.p0 ∧
    mEnv.p0 ≤ ((mtlRun mEnv 2).calls.getD 1 default).p_t :=
  ⟨by decide, (C10_mtl_first_ws_size mEnv 2 (by decide)).1,
    ((C10_mtl_first_ws_size mEnv 2 (by decide)).2 1 (by decide) (by decide)).1,
    ((C10_mtl_first_ws_size mEnv 2 (by decide)).2 1 (by decide) (by decide)).2⟩

/-! ## C3: fatal input-validation errors -/

theorem parsePb_lasso_iff {pb : String} :
    parsePb pb = some .lasso ↔ lowerStr pb = "lasso" := by
  unfold parsePb
  split_ifs with h1 h2 h3 <;> simp_all

theorem parsePb_logreg_iff {pb : String} :
    parsePb pb = some .logreg ↔ lowerStr pb = "logreg" := by
  unfold parsePb
  split_ifs with h1 h2 h3 <;> simp_all

theorem parsePb_grouplasso_iff {pb : String} :
    parsePb pb = some .grouplasso ↔ lowerStr pb = "grouplasso" := by
  unfold parsePb
  split_ifs with h1 h2 h3 <;> simp_all

/-- Which `groups` arguments make `_grp_converter` raise a `ValueError`:
exactly a non-zero integer group size that does not divide `n_features`,
or an unsupported shape (`k = 0` raises a `ZeroDivisionError` instead,
an empty list an `IndexError`). -/
theorem grp_converter_valueError_iff (g : Groups) (nf : ℕ) :
    (∃ msg, _grp_converter g nf = .error (.valueError msg)) ↔
      (∃ k, g = .size k ∧ k ≠ 0 ∧ nf % k ≠ 0) ∨ g = .other := by
  cases g with
  | size k =>
      simp only [_grp_converter]
      by_cases h1 : k = 0
      · rw [if_pos h1]
        constructor
        · rintro ⟨msg, h⟩; exact absurd h (by simp)
        · rintro (⟨k', hk', hne, -⟩ | h)
          · obtain rfl : k = k' := by injection hk'
            exact absurd h1 hne
          · exact absurd h (by simp)
      · rw [if_neg h1]
        by_cases h2 : nf % k ≠ 0
        · rw [if_pos h2]
          constructor
          · intro; exact Or.inl ⟨k, rfl, h1, h2⟩
          · intro; exact ⟨_, rfl⟩
        · rw [if_neg h2]
          constructor
          · rintro ⟨msg, h⟩; exact absurd h (by simp)
          · rintro (⟨k', hk', -, hm⟩ | h)
            · obtain rfl : k = k' := by injection hk'
              exact absurd hm h2
            · exact absurd h (by simp)
  | sizes l => cases l <;> simp [_grp_converter]
  | lists ls => cases ls <;> simp [_grp_converter]
  | other => simp [_grp_converter]

/-- Which inputs make `validate` raise a `ValueError`. -/
theorem validate_valueError_iff (pb : String) (y : List ℚ)
    (groups : Option Groups) (nf : ℕ) :
    (∃ msg, validate pb y groups nf = .error (.valueError msg)) ↔
      parsePb pb = none ∨
      (lowerStr pb = "grouplasso" ∧ groups = none) ∨
      (lowerStr pb = "logreg" ∧ ∃ v ∈ y, ¬(v = -1 ∨ v = 1)) ∨
      (lowerStr pb = "grouplasso" ∧
        ∃ k, groups = some (.size k) ∧ k ≠ 0 ∧ nf % k ≠ 0) ∨
      (lowerStr pb = "grouplasso" ∧ groups = some .other) := by
  cases hpb : parsePb pb with
  | none =>
      simp only [validate, hpb]
      constructor
      · intro; exact Or.inl trivial
      · intro; exact ⟨_, rfl⟩
  | some v =>
      cases v with
      | lasso =>
          have hlow := parsePb_lasso_iff.mp hpb
          have h2 : ¬ lowerStr pb = "logreg" := by rw [hlow]; decide
          have h3 : ¬ lowerStr pb = "grouplasso" := by rw [hlow]; decide
          simp only [validate, hpb]
          constructor
          · rintro ⟨msg, hmsg⟩; exact absurd hmsg (by simp)
          · rintro (h | ⟨h, -⟩ | ⟨h, -⟩ | ⟨h, -⟩ | ⟨h, -⟩)
            · exact absurd h (by simp)
            · exact absurd h h3
            · exact absurd h h2
            · exact absurd h h3
            · exact absurd h h3
      | logreg =>
          have hlow := parsePb_logreg_iff.mp hpb
          have h3 : ¬ lowerStr pb = "grouplasso" := by rw [hlow]; decide
          simp only [validate, hpb]
          by_cases hy : y.all (fun v => decide (v = -1 ∨ v = 1))
          · rw [if_pos hy]
            rw [List.all_eq_true] at hy
            constructor
            · rintro ⟨msg, hmsg⟩; exact absurd hmsg (by simp)
            · rintro (h | ⟨h, -⟩ | ⟨-, v, hv, hbad⟩ | ⟨h, -⟩ | ⟨h, -⟩)
              · exact absurd h (by simp)
              · exact absurd h h3
              · exact absurd (of_decide_eq_true (hy v hv)) hbad
              · exact absurd h h3
              · exact absurd h h3
          · rw [if_neg hy]
            constructor
            · intro
              refine Or.inr (Or.inr (Or.inl ⟨hlow, ?_⟩))
              rw [List.all_eq_true] at hy
              push_neg at hy
              obtain ⟨v, hv, hbad⟩ := hy
              exact ⟨v, hv, fun hgood => hbad (decide_eq_true hgood)⟩
            · intro; exact ⟨_, rfl⟩
      | grouplasso =>
          have hlow := parsePb_grouplasso_iff.mp hpb
          have h2 : ¬ lowerStr pb = "logreg" := by rw [hlow]; decide
          simp only [validate, hpb]
          cases groups with
          | none =>
              constructor
              · intro; exact Or.inr (Or.inl ⟨hlow, rfl⟩)
              · intro; exact ⟨_, rfl⟩
          | some g =>
              have hmap : ∀ msg,
                  ((_grp_converter g nf).map
                      (fun pt => ((Pb.grouplasso : Pb), some pt))
                    = .error (.valueError msg))
                  ↔ _grp_converter g nf = .error (.valueError msg) :=
                fun msg => exceptMap_error_iff
              constructor
              · rintro ⟨msg, hmsg⟩
                rw [hmap msg] at hmsg
                rcases (grp_converter_valueError_iff g nf).mp ⟨msg, hmsg⟩ with
                  ⟨k, rfl, hk, hm⟩ | rfl
                · exact Or.inr (Or.inr (Or.inr (Or.inl
                    ⟨hlow, k, rfl, hk, hm⟩)))
                · exact Or.inr (Or.inr (Or.inr (Or.inr ⟨hlow, rfl⟩)))
              · rintro (h | ⟨-, h⟩ | ⟨h, -⟩ | ⟨-, k, hk, hne0, hm⟩ | ⟨-, h⟩)
                · exact absurd h (by simp)
                · exact absurd h (by simp)
                · exact absurd h h2
                · obtain rfl : g = .size k := by injection hk
                  obtain ⟨msg, hmsg⟩ := (grp_converter_valueError_iff
                    (.size k) nf).mpr (Or.inl ⟨k, rfl, hne0, hm⟩)
                  exact ⟨msg, (hmap msg).mpr hmsg⟩
                · obtain rfl : g = .other := by injection h
                  obtain ⟨msg, hmsg⟩ := (grp_converter_valueError_iff
                    .other nf).mpr (Or.inr rfl)
                  exact ⟨msg, (hmap msg).mpr hmsg⟩

/-- C3: `celer_path` raises a `ValueError` exactly when: the problem name
is (case-insensitively) none of `"lasso"`, `"logreg"`, `"grouplasso"`;
the problem is `"grouplasso"` and `groups` is missing; the problem is
`"logreg"` and `y` contains a value outside `{-1, 1}`; the problem is
`"grouplasso"` and `groups` is a non-zero integer that does not evenly
divide `n_features` (a zero group size raises a `ZeroDivisionError`
instead, per Python's `%`); or `groups` has an unsupported shape.  The
error is raised before any solving begins: an erroring call returns the
same error whatever the inner solver, grid, or dual-initialization
functions — no solver is invoked and no results are computed. -/
theorem C3_validation_errors (a : CelerArgs)
    (solver : SolverCall → SolverResult) (grid : List ℚ)
    (cXw : List ℚ → List ℚ) (iTh : List ℚ → ℚ → List ℚ) :
    ((∃ msg, celer_path a solver grid cXw iTh = .error (.valueError msg)) ↔
      parsePb a.pb = none ∨
      (lowerStr a.pb = "grouplasso" ∧ a.groups = none) ∨
      (lowerStr a.pb = "logreg" ∧ ∃ v ∈ a.y, ¬(v = -1 ∨ v = 1)) ∨
      (lowerStr a.pb = "grouplasso" ∧
        ∃ k, a.groups = some (.size k) ∧ k ≠ 0 ∧ a.n_features % k ≠ 0) ∨
      (lowerStr a.pb = "grouplasso" ∧ a.groups = some .other)) ∧
    (∀ e (solver' : SolverCall → SolverResult) (grid' : List ℚ)
        (cXw' : List ℚ → List ℚ) (iTh' : List ℚ → ℚ → List ℚ),
      celer_path a solver grid cXw iTh = .error e →
      celer_path a solver' grid' cXw' iTh' = .error e) := by
  constructor
  · have h : ∀ msg, celer_path a solver grid cXw iTh
        = .error (.valueError msg)
        ↔ validate a.pb a.y a.groups a.n_features
          = .error (.valueError msg) := by
      intro msg
      unfold celer_path
      exact exceptMap_error_iff
    constructor
    · rintro ⟨msg, hmsg⟩
      exact (validate_valueError_iff a.pb a.y a.groups a.n_features).mp
        ⟨msg, (h msg).mp hmsg⟩
    · intro hcase
      obtain ⟨msg, hmsg⟩ :=
        (validate_valueError_iff a.pb a.y a.groups a.n_features).mpr hcase
      exact ⟨msg, (h msg).mpr hmsg⟩
  · intro e solver' grid' cXw' iTh' he
    have h1 : validate a.pb a.y a.groups a.n_features = .error e := by
      unfold celer_path at he
      exact exceptMap_error_iff.mp he
    unfold celer_path
    exact exceptMap_error_iff.mpr h1

/-- Witness for C3: an unsupported problem name errors out identically
under two different solvers and grids, and the error cases are exercised
concretely. -/
theorem C3_witness :
    (∃ msg, celer_path aBad idSolver [] id theta0
      = .error (.valueError msg)) ∧
    celer_path aBad gapSolver [5, 7] id theta0
      = .error (.valueError ("Unsupported problem " ++ "foo")) :=
  ⟨(C3_validation_errors aBad idSolver [] id theta0).1.mpr
      (Or.inl (by decide)),
   (C3_validation_errors aBad idSolver [] id theta0).2 _ gapSolver [5, 7]
      id theta0 rfl⟩

/-! ## C5: `alpha_max` and zero-optimality for the Lasso -/

/-- Expansion of the Lasso objective around the all-zero point. -/
theorem lassoObj_expand {n p : ℕ} (X : Fin n → Fin p → ℚ) (y : Fin n → ℚ)
    (alpha : ℚ) (w : Fin p → ℚ) :
    lassoObj X y alpha w = lassoObj X y alpha 0 +
      ((∑ i, (∑ j, X i j * w j) ^ 2) - 2 * ∑ j, w j * XtYcol X y j) / (2 * n)
      + alpha * ∑ j, |w j| := by
  have hexp : ∀ i : Fin n, (y i - ∑ j, X i j * w j) ^ 2
      = y i ^ 2 - 2 * (y i * ∑ j, X i j * w j) + (∑ j, X i j * w j) ^ 2 :=
    fun i => by ring
  have hswap : ∑ i, y i * ∑ j, X i j * w j = ∑ j, w j * XtYcol X y j := by
    unfold XtYcol
    simp_rw [Finset.mul_sum]
    rw [Finset.sum_comm]
    exact Finset.sum_congr rfl fun j _ =>
      Finset.sum_congr rfl fun i _ => by ring
  have hsum : ∑ i, (y i - ∑ j, X i j * w j) ^ 2
      = (∑ i, y i ^ 2) - 2 * (∑ j, w j * XtYcol X y j)
        + ∑ i, (∑ j, X i j * w j) ^ 2 := by
    simp_rw [hexp]
    rw [Finset.sum_add_distrib, Finset.sum_sub_distrib, ← Finset.mul_sum,
      hswap]
  have h0 : lassoObj X y alpha 0 = (∑ i, y i ^ 2) / (2 * n) := by
    unfold lassoObj
    simp
  rw [h0]
  unfold lassoObj
  rw [hsum]
  ring

/-- If `alpha ≥ alpha_max`, the all-zero vector minimizes the Lasso
objective. -/
theorem lasso_zero_optimal_of_le {n p : ℕ} [Nonempty (Fin p)] (hn : 0 < n)
    (X : Fin n → Fin p → ℚ) (y : Fin n → ℚ) {alpha : ℚ}
    (halpha : alphaMaxLasso X y ≤ alpha) (w : Fin p → ℚ) :
    lassoObj X y alpha 0 ≤ lassoObj X y alpha w := by
  rw [lassoObj_expand X y alpha w]
  set M := Finset.univ.sup' Finset.univ_nonempty
    (fun j => |XtYcol X y j|) with hM
  have hMn : M / (n : ℚ) ≤ alpha := halpha
  have hnQ : (0 : ℚ) < (n : ℚ) := by exact_mod_cast hn
  have hne : (n : ℚ) ≠ 0 := ne_of_gt hnQ
  have hL : 0 ≤ ∑ j, |w j| := Finset.sum_nonneg fun j _ => abs_nonneg _
  have hQ : 0 ≤ ∑ i, (∑ j, X i j * w j) ^ 2 :=
    Finset.sum_nonneg fun i _ => sq_nonneg _
  have hT : ∑ j, w j * XtYcol X y j ≤ M * ∑ j, |w j| := by
    rw [Finset.mul_sum]
    refine Finset.sum_le_sum fun j _ => ?_
    calc w j * XtYcol X y j ≤ |w j * XtYcol X y j| := le_abs_self _
    _ = |XtYcol X y j| * |w j| := by rw [abs_mul]; ring
    _ ≤ M * |w j| := by
        refine mul_le_mul_of_nonneg_right ?_ (abs_nonneg _)
        rw [hM]
        exact Finset.le_sup' (fun j => |XtYcol X y j|) (Finset.mem_univ j)
  have h2n : (0 : ℚ) < 2 * n := by linarith
  have h1 : -(2 * (M * ∑ j, |w j|))
      ≤ (∑ i, (∑ j, X i j * w j) ^ 2) - 2 * ∑ j, w j * XtYcol X y j := by
    linarith
  have h2 : (-(2 * (M * ∑ j, |w j|))) / (2 * n)
      ≤ ((∑ i, (∑ j, X i j * w j) ^ 2)
          - 2 * ∑ j, w j * XtYcol X y j) / (2 * n) := by
    gcongr
  have h3 : (-(2 * (M * ∑ j, |w j|))) / (2 * n)
      = -(M / n * ∑ j, |w j|) := by
    field_simp
    ring
  have h4 : M / n * ∑ j, |w j| ≤ alpha * ∑ j, |w j| :=
    mul_le_mul_of_nonneg_right hMn hL
  linarith [h3 ▸ h2]

/-- If `0 ≤ alpha < alpha_max`, the all-zero vector is not optimal: some
coordinate direction strictly improves the Lasso objective. -/
theorem lasso_zero_not_optimal_of_lt {n p : ℕ} [Nonempty (Fin p)]
    (hn : 0 < n) (X : Fin n → Fin p → ℚ) (y : Fin n → ℚ) {alpha : ℚ}
    (halpha : alpha < alphaMaxLasso X y) :
    ∃ w, lassoObj X y alpha w < lassoObj X y alpha 0 := by
  obtain ⟨j0, -, hj0⟩ := Finset.exists_mem_eq_sup' Finset.univ_nonempty
    (fun j => |XtYcol X y j|)
  set c := XtYcol X y j0 with hc
  set Q := ∑ i, (X i j0) ^ 2 with hQdef
  have hQ0 : 0 ≤ Q := Finset.sum_nonneg fun i _ => sq_nonneg _
  have hnQ : (0 : ℚ) < (n : ℚ) := by exact_mod_cast hn
  have hne : (n : ℚ) ≠ 0 := ne_of_gt hnQ
  have hMα : alpha < |c| / n := by
    have he : alphaMaxLasso X y = |c| / n := by
      unfold alphaMaxLasso
      rw [hj0]
    rwa [he] at halpha
  set δ : ℚ := |c| / n - alpha with hδdef
  have hδ : 0 < δ := by rw [hδdef]; linarith
  set s : ℚ := if c < 0 then -1 else 1 with hs
  have hsc : s * c = |c| := by
    by_cases h : c < 0
    · rw [hs, if_pos h, abs_of_neg h]; ring
    · rw [hs, if_neg h, abs_of_nonneg (le_of_not_lt h)]; ring
  have hs2 : s ^ 2 = 1 := by
    by_cases h : c < 0 <;> rw [hs] <;> simp [h]
  have habs : |s| = 1 := by
    by_cases h : c < 0 <;> rw [hs] <;> simp [h]
  set t : ℚ := if Q = 0 then 1 else n * δ / Q with ht
  have htpos : 0 < t := by
    by_cases h : Q = 0
    · rw [ht, if_pos h]; norm_num
    · rw [ht, if_neg h]
      exact div_pos (mul_pos hnQ hδ) (lt_of_le_of_ne hQ0 (Ne.symm h))
  set w0 : Fin p → ℚ := Pi.single j0 (t * s) with hw0def
  refine ⟨w0, ?_⟩
  rw [lassoObj_expand X y alpha w0]
  have hrow : ∀ i, ∑ j, X i j * w0 j = X i j0 * (t * s) := by
    intro i
    rw [Finset.sum_eq_single j0]
    · rw [hw0def, Pi.single_eq_same]
    · intro b _ hb
      rw [hw0def, Pi.single_eq_of_ne hb, mul_zero]
    · intro h; exact absurd (Finset.mem_univ _) h
  have hC : ∑ i, (∑ j, X i j * w0 j) ^ 2 = t ^ 2 * Q := by
    simp_rw [hrow]
    rw [hQdef, Finset.mul_sum]
    refine Finset.sum_congr rfl fun i _ => ?_
    have hsq : (X i j0 * (t * s)) ^ 2 = (X i j0) ^ 2 * (t ^ 2 * s ^ 2) := by
      ring
    rw [hsq, hs2]
    ring
  have hB : ∑ j, w0 j * XtYcol X y j = t * |c| := by
    rw [Finset.sum_eq_single j0]
    · rw [hw0def, Pi.single_eq_same, ← hc, mul_assoc, hsc]
    · intro b _ hb
      rw [hw0def, Pi.single_eq_of_ne hb, zero_mul]
    · intro h; exact absurd (Finset.mem_univ _) h
  have hLs : ∑ j, |w0 j| = t := by
    rw [Finset.sum_eq_single j0]
    · rw [hw0def, Pi.single_eq_same, abs_mul, habs, mul_one]
      exact abs_of_pos htpos
    · intro b _ hb
      rw [hw0def, Pi.single_eq_of_ne hb, abs_zero]
    · intro h; exact absurd (Finset.mem_univ _) h
  rw [hC, hB, hLs]
  have hkey : (t ^ 2 * Q - 2 * (t * |c|)) / (2 * n) + alpha * t < 0 := by
    by_cases hQz : Q = 0
    · have ht1 : t = 1 := by rw [ht, if_pos hQz]
      have hval : (t ^ 2 * Q - 2 * (t * |c|)) / (2 * n) + alpha * t
          = alpha - |c| / n := by
        rw [ht1, hQz]
        field_simp
        ring
      rw [hval]
      linarith
    · have hQpos : 0 < Q := lt_of_le_of_ne hQ0 (Ne.symm hQz)
      have htv : t = n * δ / Q := by rw [ht, if_neg hQz]
      have hQne : Q ≠ 0 := hQz
      have hval : (t ^ 2 * Q - 2 * (t * |c|)) / (2 * n) + alpha * t
          = t * (δ / 2 + alpha - |c| / n) := by
        rw [htv]
        field_simp
        ring
      rw [hval]
      have hbr : δ / 2 + alpha - |c| / n = -(δ / 2) := by
        rw [hδdef]; ring
      rw [hbr]
      exact mul_neg_of_pos_of_neg htpos (by linarith)
  linarith

/-- C5: for the Lasso, the analytic `alpha_max` of `homotopy.py` line 180
(the infinity-norm of `X.T @ y` divided by `n_samples`, embedded as
`alphaMaxLasso`) is exactly the smallest penalty at which the all-zero
solution is optimal: the zero vector minimizes the Lasso objective if and
only if `alpha ≥ alpha_max` — so solving at `alpha_max` (or larger)
admits the all-zero solution, while at any strictly smaller penalty every
minimizer is non-zero.  (The Logreg and positive-Lasso variants of the
analytic formula are embedded as `alphaMaxLogreg` and
`alphaMaxLassoPositive`; when `alphas is None` the grid is
`alpha_max * geomspace(1, eps, n_alphas)`, abstracted as `defaultGrid` in
`celer_path`.) -/
theorem C5_alpha_max_zero_optimality {n p : ℕ} [Nonempty (Fin p)]
    (hn : 0 < n) (X : Fin n → Fin p → ℚ) (y : Fin n → ℚ) (alpha : ℚ) :
    (∀ w, lassoObj X y alpha 0 ≤ lassoObj X y alpha w) ↔
      alphaMaxLasso X y ≤ alpha := by
  constructor
  · intro hopt
    by_contra hlt
    push_neg at hlt
    obtain ⟨w, hw⟩ := lasso_zero_not_optimal_of_lt hn X y hlt
    exact absurd (hopt w) (not_le.mpr hw)
  · intro hge w
    exact lasso_zero_optimal_of_le hn X y hge w

/-- Witness for C5 on the one-sample, one-feature dataset `X = [[1]]`,
`y = [1]` (where `alpha_max = 1`) at `alpha = 2`. -/
theorem C5_witness :
    (0 : ℕ) < 1 ∧
    ((∀ w : Fin 1 → ℚ, lassoObj X1 y1 2 0 ≤ lassoObj X1 y1 2 w) ↔
      alphaMaxLasso X1 y1 ≤ 2) :=
  ⟨Nat.one_pos, C5_alpha_max_zero_optimality Nat.one_pos X1 y1 2⟩

end Celer
